import Mathlib

/-!
Verification of the department-selection application core: a shallow
embedding of the quota validator, the selection state machine, the appeal
resolver and the publication gate, as implemented in `routers/api.py`
over the SQLAlchemy models of `models.py` (PostgreSQL backend, so the
store enforces the declared unique and foreign-key constraints at
flush/commit time).  Timestamps are abstracted to natural numbers and a
`now` parameter; Python `datetime.now()` stamps become `some now`.
-/

namespace DeptSel

/-- Embeds `models.Category`: id, name, max_selections (Python int). -/
structure Category where
  id : Nat
  name : String
  max_selections : Int
deriving Repr, DecidableEq

/-- Embeds `models.Department`: id, name, nullable category_id. -/
structure Department where
  id : Nat
  name : String
  category_id : Option Nat
deriving Repr, DecidableEq

/-- Embeds `models.Member`: id plus the submitted contact fields. -/
structure Member where
  id : Nat
  full_name : String
  phone : String
  email : String
  address : String
deriving Repr, DecidableEq

/-- Embeds `models.MemberDepartment`: the selection record with the approval
workflow columns.  `source`/`status` are nullable strings (server
defaults "member"/"pending" are applied on insert by the store). -/
structure MemberDepartment where
  id : Nat
  member_id : Nat
  department_id : Nat
  source : Option String
  status : Option String
  replaced_by_id : Option Nat
  admin_note : Option String
  status_changed_at : Option Nat
deriving Repr, DecidableEq

/-- Embeds `models.Appeal`. -/
structure Appeal where
  id : Nat
  member_id : Nat
  unwanted_department_id : Option Nat
  wanted_department_id : Option Nat
  reason : Option String
  status : String
  admin_response : Option String
  resolved_at : Option Nat
deriving Repr, DecidableEq

/-- The relational store: one list per table (in insertion order, which is
the order unfiltered queries return rows in) plus the settings key-value
table and the autoincrement counters. -/
structure DB where
  categories : List Category
  departments : List Department
  members : List Member
  memberDepartments : List MemberDepartment
  appeals : List Appeal
  settings : List (String × String)
  nextMemberId : Nat
  nextMdId : Nat
  nextAppealId : Nat
deriving Repr, DecidableEq

/-- Outcome of an API operation that fails: an `HTTPException` with status
code and detail, or an uncaught Python exception (surfaced as a 500). -/
inductive ApiError where
  | http (status : Nat) (detail : String)
  | pyExc (name : String)
deriving Repr, DecidableEq

instance {ε α : Type} [DecidableEq ε] [DecidableEq α] : DecidableEq (Except ε α) :=
  fun a b =>
    match a, b with
    | .error e₁, .error e₂ => decidable_of_iff (e₁ = e₂) (by simp)
    | .ok a₁, .ok a₂ => decidable_of_iff (a₁ = a₂) (by simp)
    | .error _, .ok _ => isFalse (fun h => Except.noConfusion h)
    | .ok _, .error _ => isFalse (fun h => Except.noConfusion h)

/-- Embeds `db.query(Settings).filter(Settings.key == key).first()`. -/
def settingLookup (settings : List (String × String)) (key : String) : Option String :=
  (settings.find? (fun p => p.1 == key)).map (fun p => p.2)

/-- Embeds `int(max_setting.value) if max_setting else 3`: `none` models the
`ValueError` raised by `int()` on an unparsable stored value. -/
def maxDepartmentsSetting (settings : List (String × String)) : Option Int :=
  match settingLookup settings "maxDepartments" with
  | some v => v.toInt?
  | none => some 3

/-- Python truthiness of a nullable integer: `None` and `0` are falsy. -/
def optTruthy (o : Option Nat) : Option Nat :=
  match o with
  | some n => if n == 0 then none else some n
  | none => none

/-- Python `x or default` for an optional string: `None` and `""` are falsy. -/
def pyOr (o : Option String) (d : String) : String :=
  match o with
  | some s => if s == "" then d else s
  | none => d

/-- Whitespace characters recognised by Python `str.strip()`: the code
points for which `str.isspace()` holds — 0x09-0x0D, 0x1C-0x1F, space,
NEL (0x85), NBSP (0xA0), Ogham space (0x1680), the 0x2000-0x200A space
range, the line and paragraph separators (0x2028, 0x2029), narrow NBSP
(0x202F), medium mathematical space (0x205F) and ideographic space
(0x3000). -/
def isPyWhitespace (c : Char) : Bool :=
  (0x09 ≤ c.toNat && c.toNat ≤ 0x0d) || c == ' ' ||
  (0x1c ≤ c.toNat && c.toNat ≤ 0x1f) || c.toNat == 0x85 || c.toNat == 0xa0 ||
  c.toNat == 0x1680 || (0x2000 ≤ c.toNat && c.toNat ≤ 0x200a) ||
  c.toNat == 0x2028 || c.toNat == 0x2029 || c.toNat == 0x202f ||
  c.toNat == 0x205f || c.toNat == 0x3000

/-- Embeds `phone.strip()`. -/
def pyStrip (s : String) : String :=
  String.mk (((s.toList.dropWhile isPyWhitespace).reverse.dropWhile isPyWhitespace).reverse)

/-- Embeds `phone.strip().replace(" ", "").replace("-", "")`: the normalization
used by member lookup, acceptance verification and appeal submission. -/
def normalizePhone (s : String) : String :=
  String.mk ((pyStrip s).toList.filter (fun c => !(c == ' ' || c == '-')))

/-- Embeds `validate_phone`: exactly 10 digits after stripping non-digits. -/
def validate_phone (phone : String) : Bool :=
  (phone.toList.filter Char.isDigit).length == 10

/-- Truthy category id of a department (`if dept.category_id:`). -/
def truthyCid (d : Department) : Option Nat :=
  match d.category_id with
  | some c => if c == 0 then none else some c
  | none => none

/-- The departments returned by
`query(Department).filter(Department.id.in_(selected))`: the stored rows
whose id occurs in the proposed list. -/
def selectedDepartments (depts : List Department) (sel : List Nat) : List Department :=
  depts.filter (fun d => sel.contains d.id)

/-- First-occurrence deduplication: the key order of a Python dict built
by insertion. -/
def dedupKeys : List Nat → List Nat
  | [] => []
  | x :: xs => x :: (dedupKeys xs).filter (fun y => y != x)

/-- The `category_selections` dict of `submit_form`/`update_member`:
proposed departments grouped by truthy `category_id`, keys in first
insertion order, each entry listing the matching department ids. -/
def categorySelections (depts : List Department) : List (Nat × List Nat) :=
  (dedupKeys (depts.filterMap truthyCid)).map
    (fun cid => (cid, (depts.filter (fun d => truthyCid d == some cid)).map (fun d => d.id)))

/-- Embeds `db.query(Category).filter(Category.id == category_id).first()`. -/
def findCategory (cats : List Category) (cid : Nat) : Option Category :=
  cats.find? (fun c => c.id == cid)

/-- Result of quota validation: pass, reject with an HTTP 400 detail
message, or an uncaught Python exception. -/
inductive ValidationOutcome where
  | ok
  | reject (msg : String)
  | pyError (name : String)
deriving Repr, DecidableEq

/-- Embeds `f"You can only select up to {max_departments} departments"`. -/
def globalLimitMsg (g : Int) : String :=
  "You can only select up to " ++ toString g ++ " departments"

/-- Embeds `f"You can only select up to {max_allowed} department(s) from '{category.name}'"`. -/
def categoryLimitMsg (maxAllowed : Int) (name : String) : String :=
  "You can only select up to " ++ toString maxAllowed ++ " department(s) from \x27" ++ name ++ "\x27"

/-- The per-category loop of the validator.  When the category row is
missing, `max_allowed` defaults to 1; if the count then exceeds it the
error f-string dereferences `category.name` on `None`, an
`AttributeError`. -/
def checkCategories (cats : List Category) : List (Nat × List Nat) → ValidationOutcome
  | [] => .ok
  | (cid, dids) :: rest =>
    match findCategory cats cid with
    | some cat =>
      if (dids.length : Int) > cat.max_selections then
        .reject (categoryLimitMsg cat.max_selections cat.name)
      else checkCategories cats rest
    | none =>
      if (dids.length : Int) > 1 then .pyError "AttributeError"
      else checkCategories cats rest

/-- The quota validation shared verbatim between `submit_form` (lines
409-442) and `update_member` (lines 322-351): global `maxDepartments`
bound over the raw proposed list, then the per-category bounds over the
resolvable departments. -/
def validateQuota (db : DB) (sel : List Nat) : ValidationOutcome :=
  match maxDepartmentsSetting db.settings with
  | none => .pyError "ValueError"
  | some g =>
    if (sel.length : Int) > g then .reject (globalLimitMsg g)
    else checkCategories db.categories (categorySelections (selectedDepartments db.departments sel))

/-- Insert-time constraint check for a MemberDepartment row, as enforced
by the store: the `(member_id, department_id)` unique constraint and the
foreign keys to `departments` and `members`. -/
def mdInsertConflict (table : List MemberDepartment) (depts : List Department)
    (members : List Member) (r : MemberDepartment) : Bool :=
  table.any (fun x => x.member_id == r.member_id && x.department_id == r.department_id)
  || !(depts.any (fun d => d.id == r.department_id))
  || !(members.any (fun m => m.id == r.member_id))

/-- Flush a batch of new MemberDepartment rows: each is checked against
the table as grown so far; the first violation aborts the transaction
with an `IntegrityError`. -/
def insertAll (depts : List Department) (members : List Member) :
    List MemberDepartment → List MemberDepartment → Except ApiError (List MemberDepartment)
  | table, [] => .ok table
  | table, r :: rs =>
    if mdInsertConflict table depts members r then .error (.pyExc "IntegrityError")
    else insertAll depts members (table ++ [r]) rs

/-- A fresh member-sourced selection row: the store's server defaults
fill `source="member"` and `status="pending"`. -/
def mkMemberRow (id member_id department_id : Nat) : MemberDepartment :=
  ⟨id, member_id, department_id, some "member", some "pending", none, none, none⟩

/-- Update the first list element satisfying `p` (the object returned by
`.first()` is mutated in place). -/
def updateFirst {α : Type} (p : α → Bool) (f : α → α) : List α → List α
  | [] => []
  | x :: xs => if p x then f x :: xs else x :: updateFirst p f xs

/-- Request body of `POST /submit` (`schemas.MemberSubmission`). -/
structure MemberSubmission where
  full_name : String
  phone : String
  email : String
  address : String
  selected_departments : List Nat
deriving Repr, DecidableEq

/-- Embeds `submit_form` (`POST /submit`): required fields, phone format, the
empty-proposal rejection, quota validation, then creation of the member
and one selection row per proposed department id. -/
def submit_form (db : DB) (data : MemberSubmission) : Except ApiError (DB × Nat) :=
  if data.full_name == "" || data.phone == "" || data.address == "" then
    .error (.http 400 "Full name, phone, and address are required")
  else if !(validate_phone data.phone) then
    .error (.http 400 "Phone number must be 10 digits (e.g., 0711234456)")
  else if data.selected_departments.isEmpty then
    .error (.http 400 "Please select at least one department")
  else
    match validateQuota db data.selected_departments with
    | .reject msg => .error (.http 400 msg)
    | .pyError e => .error (.pyExc e)
    | .ok =>
      let member : Member := ⟨db.nextMemberId, data.full_name, data.phone, data.email, data.address⟩
      let newRows := data.selected_departments.enum.map
        (fun p => mkMemberRow (db.nextMdId + p.1) member.id p.2)
      match insertAll db.departments (db.members ++ [member]) db.memberDepartments newRows with
      | .error e => .error e
      | .ok table =>
        .ok ({db with members := db.members ++ [member],
                      memberDepartments := table,
                      nextMemberId := db.nextMemberId + 1,
                      nextMdId := db.nextMdId + data.selected_departments.length}, member.id)

/-- Request body of `PUT /members/{member_id}`: a raw dict, each key
optional (`"k" in data`). -/
structure UpdateData where
  full_name : Option String
  email : Option String
  address : Option String
  selected_departments : Option (List Nat)
deriving Repr, DecidableEq

/-- Embeds `update_member` (`PUT /members/{member_id}`): patch the basic fields;
when `selected_departments` is present, re-run quota validation (identical
to `submit_form`, but with no empty-proposal check), then delete all of
the member's existing selection rows and insert fresh ones. -/
def update_member (db : DB) (member_id : Nat) (data : UpdateData) : Except ApiError DB :=
  match db.members.find? (fun m => m.id == member_id) with
  | none => .error (.http 404 "Member not found")
  | some m =>
    let m' : Member := {m with full_name := data.full_name.getD m.full_name,
                               email := data.email.getD m.email,
                               address := data.address.getD m.address}
    let members' := updateFirst (fun x => x.id == member_id) (fun _ => m') db.members
    match data.selected_departments with
    | none => .ok {db with members := members'}
    | some sel =>
      match validateQuota db sel with
      | .reject msg => .error (.http 400 msg)
      | .pyError e => .error (.pyExc e)
      | .ok =>
        let kept := db.memberDepartments.filter (fun r => !(r.member_id == member_id))
        let newRows := sel.enum.map (fun p => mkMemberRow (db.nextMdId + p.1) member_id p.2)
        match insertAll db.departments members' kept newRows with
        | .error e => .error e
        | .ok table =>
          .ok {db with members := members',
                       memberDepartments := table,
                       nextMdId := db.nextMdId + sel.length}

/-- Request body of `PUT /admin/reviews/{id}` (`schemas.ReviewStatusUpdate`). -/
structure ReviewStatusUpdate where
  status : String
  admin_note : Option String
deriving Repr, DecidableEq

/-- Embeds `update_review_status` (`PUT /admin/reviews/{member_department_id}`):
direct review of a single selection row. -/
def update_review_status (db : DB) (now : Nat) (member_department_id : Nat)
    (data : ReviewStatusUpdate) : Except ApiError DB :=
  match db.memberDepartments.find? (fun r => r.id == member_department_id) with
  | none => .error (.http 404 "Selection not found")
  | some _ =>
    if !(data.status == "approved" || data.status == "rejected") then
      .error (.http 400 "Status must be \x27approved\x27 or \x27rejected\x27")
    else
      .ok {db with memberDepartments :=
        (updateFirst (fun r => r.id == member_department_id)
          (fun r => {r with status := some data.status,
                            admin_note := data.admin_note,
                            status_changed_at := some now})
          db.memberDepartments)}

/-- Request body of `POST /admin/reviews/{id}/replace`. -/
structure ReplaceDepartmentRequest where
  new_department_id : Nat
  admin_note : Option String
deriving Repr, DecidableEq

/-- Embeds `replace_department` (`POST /admin/reviews/{id}/replace`): reject the
original row with a defaulted note and stamp, flush a fresh admin-sourced
approved row for the new department, then link `replaced_by_id`.  The
note on the new row reads `md.department.name`, an `AttributeError` when
the original row's department no longer resolves; the flush aborts with
an `IntegrityError` when the member already holds the new department. -/
def replace_department (db : DB) (now : Nat) (member_department_id : Nat)
    (data : ReplaceDepartmentRequest) : Except ApiError DB :=
  match db.memberDepartments.find? (fun r => r.id == member_department_id) with
  | none => .error (.http 404 "Selection not found")
  | some md =>
    match db.departments.find? (fun d => d.id == data.new_department_id) with
    | none => .error (.http 404 "New department not found")
    | some new_dept =>
      match db.departments.find? (fun d => d.id == md.department_id) with
      | none => .error (.pyExc "AttributeError")
      | some old_dept =>
        let md' := {md with status := some "rejected",
                            admin_note := some (pyOr data.admin_note ("Replaced with " ++ new_dept.name)),
                            status_changed_at := some now}
        let table₁ := updateFirst (fun r => r.id == member_department_id) (fun _ => md')
          db.memberDepartments
        let new_md : MemberDepartment :=
          ⟨db.nextMdId, md.member_id, data.new_department_id, some "admin", some "approved",
           none, some ("Replacement for " ++ old_dept.name), some now⟩
        if mdInsertConflict table₁ db.departments db.members new_md then
          .error (.pyExc "IntegrityError")
        else
          let table₂ := updateFirst (fun r => r.id == member_department_id)
            (fun r => {r with replaced_by_id := some new_md.id})
            (table₁ ++ [new_md])
          .ok {db with memberDepartments := table₂, nextMdId := db.nextMdId + 1}

/-- Request body of `POST /admin/members/{member_id}/assign`. -/
structure AssignDepartmentRequest where
  department_id : Nat
  admin_note : Option String
deriving Repr, DecidableEq

/-- Embeds `assign_department` (`POST /admin/members/{member_id}/assign`). -/
def assign_department (db : DB) (now : Nat) (member_id : Nat)
    (data : AssignDepartmentRequest) : Except ApiError DB :=
  match db.members.find? (fun m => m.id == member_id) with
  | none => .error (.http 404 "Member not found")
  | some _ =>
    match db.departments.find? (fun d => d.id == data.department_id) with
    | none => .error (.http 404 "Department not found")
    | some _ =>
      if db.memberDepartments.any
          (fun r => r.member_id == member_id && r.department_id == data.department_id) then
        .error (.http 400 "Department already assigned to this member")
      else
        let md : MemberDepartment :=
          ⟨db.nextMdId, member_id, data.department_id, some "admin", some "approved",
           none, data.admin_note, some now⟩
        .ok {db with memberDepartments := db.memberDepartments ++ [md],
                     nextMdId := db.nextMdId + 1}

/-- A row matched by the bulk-approve filter: status "pending" or null. -/
def isPendingOrNull (r : MemberDepartment) : Bool :=
  r.status == some "pending" || r.status == none

/-- Embeds `bulk_approve_pending` (`POST /admin/reviews/bulk-approve`): one
update statement setting every pending-or-null row to approved with a
stamp, returning the number of rows matched. -/
def bulk_approve_pending (db : DB) (now : Nat) : DB × Nat :=
  ({db with memberDepartments := (db.memberDepartments.map
      (fun r => if isPendingOrNull r then
          {r with status := some "approved", status_changed_at := some now}
        else r))},
   (db.memberDepartments.filter isPendingOrNull).length)

/-- Embeds `accept_admin_assignment` (`POST /results/accept/{id}`): verify the
claimed phone against the owning member's (normalized), require
`source == "admin"`, then append the acknowledgement marker to
`admin_note` and restamp `status_changed_at` — without writing `status`. -/
def accept_admin_assignment (db : DB) (now : Nat) (member_department_id : Nat)
    (phone : String) : Except ApiError DB :=
  match db.memberDepartments.find? (fun r => r.id == member_department_id) with
  | none => .error (.http 404 "Selection not found")
  | some md =>
    match db.members.find? (fun m => m.id == md.member_id) with
    | none => .error (.pyExc "AttributeError")
    | some m =>
      if !(normalizePhone phone == normalizePhone m.phone) then
        .error (.http 403 "Phone number does not match")
      else if !(md.source == some "admin") then
        .error (.http 400 "This selection was not added by admin")
      else
        .ok {db with memberDepartments :=
          (updateFirst (fun r => r.id == member_department_id)
            (fun r => {r with admin_note := some (pyOr r.admin_note "" ++ " [Accepted by member]"),
                              status_changed_at := some now})
            db.memberDepartments)}

/-- Request body of `POST /appeals` (`schemas.AppealCreate`). -/
structure AppealCreate where
  phone : String
  member_id : Option Nat
  unwanted_department_id : Option Nat
  wanted_department_id : Option Nat
  reason : Option String
deriving Repr, DecidableEq

/-- The member-resolution loop of `submit_appeal` without a `member_id`:
first member whose phone matches normalized or exactly. -/
def findMemberByPhone (members : List Member) (phone : String) : Option Member :=
  members.find? (fun m => normalizePhone m.phone == normalizePhone phone || m.phone == phone)

/-- Insert-time foreign-key check for a new Appeal row (member and the
two optional department references). -/
def appealInsertConflict (db : DB) (a : Appeal) : Bool :=
  !(db.members.any (fun m => m.id == a.member_id))
  || (match a.unwanted_department_id with
      | some u => !(db.departments.any (fun d => d.id == u))
      | none => false)
  || (match a.wanted_department_id with
      | some w => !(db.departments.any (fun d => d.id == w))
      | none => false)

/-- Embeds `submit_appeal` (`POST /appeals`): gate on `resultsPublished` and
`appealWindowOpen`, resolve the member (by id with a phone check, or by
phone scan), then create a pending Appeal row. -/
def submit_appeal (db : DB) (data : AppealCreate) : Except ApiError (DB × Nat) :=
  if !(settingLookup db.settings "resultsPublished" == some "true") then
    .error (.http 400 "Results are not yet published")
  else if !(settingLookup db.settings "appealWindowOpen" == some "true") then
    .error (.http 400 "Appeal window is currently closed")
  else
    let memberOpt : Except ApiError (Option Member) :=
      match optTruthy data.member_id with
      | some mid =>
        match db.members.find? (fun m => m.id == mid) with
        | some m =>
          if !(normalizePhone data.phone == normalizePhone m.phone) then
            .error (.http 403 "Phone number does not match member")
          else .ok (some m)
        | none => .ok none
      | none => .ok (findMemberByPhone db.members data.phone)
    match memberOpt with
    | .error e => .error e
    | .ok none => .error (.http 404 "Member not found")
    | .ok (some m) =>
      let appeal : Appeal :=
        ⟨db.nextAppealId, m.id, data.unwanted_department_id, data.wanted_department_id,
         data.reason, "pending", none, none⟩
      if appealInsertConflict db appeal then .error (.pyExc "IntegrityError")
      else .ok ({db with appeals := db.appeals ++ [appeal],
                         nextAppealId := db.nextAppealId + 1}, appeal.id)

/-- Request body of `PUT /admin/appeals/{appeal_id}`. -/
structure AppealResolve where
  status : String
  admin_response : Option String
deriving Repr, DecidableEq

/-- The selection mutations of an approved appeal: reject the approved
row for the unwanted department if one exists, then add an admin-sourced
approved row for the wanted department unless the member already holds
it in any status.  Returns the new selection table and the number of
fresh row ids consumed. -/
def applyAppealApproved (db : DB) (a : Appeal) (now : Nat) :
    Except ApiError (List MemberDepartment × Nat) :=
  let rows₁ :=
    match optTruthy a.unwanted_department_id with
    | some u =>
      updateFirst
        (fun r => r.member_id == a.member_id && r.department_id == u && r.status == some "approved")
        (fun r => {r with status := some "rejected", admin_note := some "Removed via approved appeal", status_changed_at := some now})
        db.memberDepartments
    | none => db.memberDepartments
  match optTruthy a.wanted_department_id with
  | some w =>
    if rows₁.any (fun r => r.member_id == a.member_id && r.department_id == w) then
      .ok (rows₁, 0)
    else
      let new_md : MemberDepartment :=
        ⟨db.nextMdId, a.member_id, w, some "admin", some "approved",
         none, some "Added via approved appeal", some now⟩
      if mdInsertConflict rows₁ db.departments db.members new_md then
        .error (.pyExc "IntegrityError")
      else .ok (rows₁ ++ [new_md], 1)
  | none => .ok (rows₁, 0)

/-- Embeds `resolve_appeal` (`PUT /admin/appeals/{appeal_id}`): overwrite the
appeal's status, admin_response and resolved_at (no check that the
appeal is still pending), applying the selection mutations when the new
status is "approved". -/
def resolve_appeal (db : DB) (now : Nat) (appeal_id : Nat) (data : AppealResolve) :
    Except ApiError DB :=
  match db.appeals.find? (fun a => a.id == appeal_id) with
  | none => .error (.http 404 "Appeal not found")
  | some a =>
    if !(data.status == "approved" || data.status == "rejected") then
      .error (.http 400 "Status must be \x27approved\x27 or \x27rejected\x27")
    else
      let appeals' := updateFirst (fun x => x.id == appeal_id)
        (fun x => {x with status := data.status,
                          admin_response := data.admin_response,
                          resolved_at := some now})
        db.appeals
      if data.status == "approved" then
        match applyAppealApproved db a now with
        | .error e => .error e
        | .ok (rows, k) =>
          .ok {db with appeals := appeals',
                       memberDepartments := rows,
                       nextMdId := db.nextMdId + k}
      else .ok {db with appeals := appeals'}

/-- Embeds `lookup_member_by_phone` (`GET /members/lookup`): exact phone match
first, then the first member matching after normalization. -/
def lookup_member_by_phone (db : DB) (phone : String) : Option Member :=
  match db.members.find? (fun m => m.phone == phone) with
  | some m => some m
  | none => db.members.find? (fun m => normalizePhone m.phone == normalizePhone phone)

/-- Number of proposed departments resolving to the category `cid`: the
size of the validator's partition entry for that category. -/
def catCount (db : DB) (sel : List Nat) (cid : Nat) : Nat :=
  ((selectedDepartments db.departments sel).filter (fun d => truthyCid d == some cid)).length

theorem mem_dedupKeys (l : List Nat) (x : Nat) : x ∈ dedupKeys l ↔ x ∈ l := by
  induction l with
  | nil => simp [dedupKeys]
  | cons y ys ih =>
    rw [dedupKeys]
    simp only [List.mem_cons, List.mem_filter, ih]
    constructor
    · rintro (rfl | ⟨h, -⟩)
      · exact .inl rfl
      · exact .inr h
    · rintro (rfl | h)
      · exact .inl rfl
      · by_cases hxy : x = y
        · exact .inl hxy
        · exact .inr ⟨h, by simpa using hxy⟩

theorem checkCategories_cons_some {cats : List Category} {cid : Nat} {dids : List Nat}
    {rest : List (Nat × List Nat)} {cat : Category}
    (hf : findCategory cats cid = some cat) :
    checkCategories cats ((cid, dids) :: rest) =
      if (dids.length : Int) > cat.max_selections then
        .reject (categoryLimitMsg cat.max_selections cat.name)
      else checkCategories cats rest := by
  rw [checkCategories, hf]

theorem checkCategories_cons_none {cats : List Category} {cid : Nat} {dids : List Nat}
    {rest : List (Nat × List Nat)}
    (hf : findCategory cats cid = none) :
    checkCategories cats ((cid, dids) :: rest) =
      if (dids.length : Int) > 1 then .pyError "AttributeError"
      else checkCategories cats rest := by
  rw [checkCategories, hf]

theorem validateQuota_eq {db : DB} {sel : List Nat} {g : Int}
    (hg : maxDepartmentsSetting db.settings = some g) :
    validateQuota db sel =
      if (sel.length : Int) > g then .reject (globalLimitMsg g)
      else checkCategories db.categories
        (categorySelections (selectedDepartments db.departments sel)) := by
  rw [validateQuota, hg]

theorem findCategory_self (cats : List Category) (c : Category)
    (hnd : (cats.map Category.id).Nodup) (hc : c ∈ cats) :
    findCategory cats c.id = some c := by
  induction cats with
  | nil => simp at hc
  | cons a as ih =>
    simp only [List.map_cons, List.nodup_cons] at hnd
    rcases List.mem_cons.1 hc with rfl | hmem
    · simp [findCategory]
    · have hne : (a.id == c.id) = false := by
        simp only [beq_eq_false_iff_ne, ne_eq]
        intro he
        exact hnd.1 (he ▸ List.mem_map_of_mem Category.id hmem)
      rw [findCategory, List.find?_cons_of_neg _ (by simp [hne])]
      exact ih hnd.2 hmem

theorem mem_categorySelections {depts : List Department} {cid : Nat} {dids : List Nat} :
    (cid, dids) ∈ categorySelections depts ↔
      cid ∈ dedupKeys (depts.filterMap truthyCid) ∧
      dids = (depts.filter (fun d => truthyCid d == some cid)).map (fun d => d.id) := by
  simp only [categorySelections, List.mem_map, Prod.mk.injEq]
  constructor
  · rintro ⟨k, hk, rfl, rfl⟩
    exact ⟨hk, rfl⟩
  · rintro ⟨hk, rfl⟩
    exact ⟨cid, hk, rfl, rfl⟩

theorem checkCategories_ok_mem {cats : List Category} :
    ∀ {entries : List (Nat × List Nat)}, checkCategories cats entries = .ok →
      ∀ e ∈ entries, ∀ cat, findCategory cats e.1 = some cat →
        (e.2.length : Int) ≤ cat.max_selections := by
  intro entries
  induction entries with
  | nil => intro _ e he; simp at he
  | cons e es ih =>
    obtain ⟨cid, dids⟩ := e
    intro h e' he' cat hcat
    rcases hf : findCategory cats cid with - | cat₀
    · rw [checkCategories_cons_none hf] at h
      split_ifs at h with hviol
      rcases List.mem_cons.1 he' with rfl | hmem
      · simp only at hcat
        rw [hcat] at hf
        simp at hf
      · exact ih h e' hmem cat hcat
    · rw [checkCategories_cons_some hf] at h
      split_ifs at h with hviol
      rcases List.mem_cons.1 he' with rfl | hmem
      · simp only at hcat
        rw [hcat] at hf
        cases hf
        simpa using not_lt.1 hviol
      · exact ih h e' hmem cat hcat

theorem checkCategories_reject_mem {cats : List Category} :
    ∀ {entries : List (Nat × List Nat)},
      (∀ e ∈ entries, (findCategory cats e.1).isSome) →
      (∃ e ∈ entries, ∃ cat, findCategory cats e.1 = some cat ∧
          (e.2.length : Int) > cat.max_selections) →
      ∃ e ∈ entries, ∃ cat, findCategory cats e.1 = some cat ∧
        (e.2.length : Int) > cat.max_selections ∧
        checkCategories cats entries = .reject (categoryLimitMsg cat.max_selections cat.name) := by
  intro entries
  induction entries with
  | nil =>
    rintro _ ⟨e, he, -⟩
    simp at he
  | cons e es ih =>
    rintro hall ⟨e', he', cat', hfind', hgt'⟩
    obtain ⟨cid, dids⟩ := e
    obtain ⟨cat₀, hcat₀'⟩ := Option.isSome_iff_exists.1 (hall (cid, dids) (by simp))
    have hcat₀ : findCategory cats cid = some cat₀ := hcat₀'
    by_cases hviol : (dids.length : Int) > cat₀.max_selections
    · refine ⟨(cid, dids), by simp, cat₀, hcat₀, hviol, ?_⟩
      rw [checkCategories_cons_some hcat₀, if_pos hviol]
    · have hrec : checkCategories cats ((cid, dids) :: es) = checkCategories cats es := by
        rw [checkCategories_cons_some hcat₀, if_neg hviol]
      rcases List.mem_cons.1 he' with heq | hmem
      · rw [heq] at hfind' hgt'
        simp only at hfind' hgt'
        rw [hfind'] at hcat₀
        cases hcat₀
        exact absurd hgt' hviol
      · obtain ⟨e₂, he₂, cat₂, h₂, hgt₂, hres₂⟩ :=
          ih (fun x hx => hall x (List.mem_cons_of_mem _ hx)) ⟨e', hmem, cat', hfind', hgt'⟩
        exact ⟨e₂, List.mem_cons_of_mem _ he₂, cat₂, h₂, hgt₂, hrec ▸ hres₂⟩

theorem catCount_pos_iff {db : DB} {sel : List Nat} {cid : Nat} :
    1 ≤ catCount db sel cid ↔
      cid ∈ dedupKeys ((selectedDepartments db.departments sel).filterMap truthyCid) := by
  rw [mem_dedupKeys, List.mem_filterMap, catCount]
  constructor
  · intro h
    rcases List.exists_mem_of_length_pos h with ⟨d, hd⟩
    rw [List.mem_filter] at hd
    exact ⟨d, hd.1, by simpa using hd.2⟩
  · rintro ⟨d, hd, hcid⟩
    have : d ∈ (selectedDepartments db.departments sel).filter
        (fun d => truthyCid d == some cid) := by
      rw [List.mem_filter]
      exact ⟨hd, by simp [hcid]⟩
    calc 1 ≤ 1 := le_refl 1
    _ ≤ _ := List.length_pos.2 (List.ne_nil_of_mem this)

/-- Claim C1: the quota validator is sound and complete — it accepts only
proposals within the global `maxDepartments` bound whose per-category
counts respect each category's `max_selections`; a proposal over the
global bound is rejected with the too-many-total message, and a proposal
over a category bound (but within the global bound, which is checked
first) is rejected with a message naming a violated category. -/
theorem c1_quota_validator_sound_and_complete
    (db : DB) (sel : List Nat) (g : Int)
    (hg : maxDepartmentsSetting db.settings = some g)
    (hnd : (db.categories.map Category.id).Nodup)
    (hri : ∀ d ∈ db.departments, ∀ cid, truthyCid d = some cid →
        ∃ c ∈ db.categories, c.id = cid) :
    (validateQuota db sel = .ok →
        (sel.length : Int) ≤ g ∧
        ∀ c ∈ db.categories, 1 ≤ catCount db sel c.id →
          (catCount db sel c.id : Int) ≤ c.max_selections) ∧
    ((sel.length : Int) > g →
        validateQuota db sel = .reject (globalLimitMsg g)) ∧
    ((sel.length : Int) ≤ g →
      ∀ c ∈ db.categories, 1 ≤ catCount db sel c.id →
        (catCount db sel c.id : Int) > c.max_selections →
        ∃ c' ∈ db.categories, (catCount db sel c'.id : Int) > c'.max_selections ∧
          validateQuota db sel = .reject (categoryLimitMsg c'.max_selections c'.name)) := by
  have hall : ∀ e ∈ categorySelections (selectedDepartments db.departments sel),
      (findCategory db.categories e.1).isSome := by
    rintro ⟨cid, dids⟩ he
    obtain ⟨hk, -⟩ := mem_categorySelections.1 he
    rw [mem_dedupKeys, List.mem_filterMap] at hk
    obtain ⟨d, hd, hcid⟩ := hk
    obtain ⟨c, hc, hcId⟩ :=
      hri d (List.mem_of_mem_filter hd) cid hcid
    rw [findCategory, List.find?_isSome]
    exact ⟨c, hc, by simp [hcId]⟩
  refine ⟨?_, ?_, ?_⟩
  · intro hok
    rw [validateQuota_eq hg] at hok
    split_ifs at hok with hlen
    refine ⟨not_lt.1 hlen, ?_⟩
    intro c hc hpos
    have hentry : (c.id, (selectedDepartments db.departments sel).filter
        (fun d => truthyCid d == some c.id) |>.map (fun d => d.id)) ∈
        categorySelections (selectedDepartments db.departments sel) :=
      mem_categorySelections.2 ⟨catCount_pos_iff.1 hpos, rfl⟩
    have := checkCategories_ok_mem hok _ hentry c (findCategory_self _ c hnd hc)
    simpa [catCount] using this
  · intro hlen
    rw [validateQuota_eq hg, if_pos hlen]
  · intro hlen c hc hpos hgt
    have hentry : (c.id, (selectedDepartments db.departments sel).filter
        (fun d => truthyCid d == some c.id) |>.map (fun d => d.id)) ∈
        categorySelections (selectedDepartments db.departments sel) :=
      mem_categorySelections.2 ⟨catCount_pos_iff.1 hpos, rfl⟩
    obtain ⟨⟨cid₂, dids₂⟩, he₂, cat₂, hfind₂, hgt₂, hres₂⟩ :=
      checkCategories_reject_mem hall
        ⟨_, hentry, c, findCategory_self _ c hnd hc, by simpa [catCount] using hgt⟩
    refine ⟨cat₂, List.mem_of_find?_eq_some hfind₂, ?_, ?_⟩
    · have hid : cat₂.id = cid₂ := by
        have := List.find?_some hfind₂
        simpa using this
      obtain ⟨hk₂, hd₂⟩ := mem_categorySelections.1 he₂
      simp only at hgt₂
      rw [hid]
      have hcnt : catCount db sel cid₂ = dids₂.length := by
        rw [catCount, hd₂, List.length_map]
      rw [hcnt]
      exact hgt₂
    · rw [validateQuota_eq hg, if_neg (not_lt.2 hlen)]
      exact hres₂

/-- A concrete store: one category capped at 1 holding two departments,
plus an uncategorized department; no `maxDepartments` setting (default 3). -/
def dbW1 : DB :=
  { categories := [⟨1, "Music Ministry", 1⟩],
    departments := [⟨1, "Choir", some 1⟩, ⟨2, "Praise Team", some 1⟩, ⟨3, "Ushering", none⟩],
    members := [],
    memberDepartments := [],
    appeals := [],
    settings := [],
    nextMemberId := 1, nextMdId := 1, nextAppealId := 1 }

/-- Witness for C1: on `dbW1` the proposal [1, 2] is within the global
bound but puts two departments in the capped category, and the theorem
yields the rejection naming that category. -/
theorem c1_witness :
    validateQuota dbW1 [1, 2] = .reject (categoryLimitMsg 1 "Music Ministry") := by
  obtain ⟨-, -, hc⟩ :=
    c1_quota_validator_sound_and_complete dbW1 [1, 2] 3 (by decide) (by decide)
      (by decide)
  obtain ⟨c', hc', -, hres⟩ :=
    hc (by decide) ⟨1, "Music Ministry", 1⟩ (by decide) (by decide) (by decide)
  have he : c' = ⟨1, "Music Ministry", 1⟩ := by simpa [dbW1] using hc'
  rw [he] at hres
  exact hres

theorem selectedDepartments_nil (depts : List Department) :
    selectedDepartments depts [] = [] := by
  simp [selectedDepartments]

theorem validateQuota_nil {db : DB} {g : Int}
    (hg : maxDepartmentsSetting db.settings = some g) (hg0 : 0 ≤ g) :
    validateQuota db [] = .ok := by
  rw [validateQuota_eq hg, if_neg (by simpa using not_lt.2 hg0)]
  rw [selectedDepartments_nil]
  have h1 : categorySelections ([] : List Department) = [] := by
    simp [categorySelections, dedupKeys]
  rw [h1]
  simp [checkCategories]

/-- A concrete store with one member holding one pending selection row. -/
def dbW2 : DB :=
  { categories := [⟨1, "Music Ministry", 1⟩],
    departments := [⟨1, "Choir", some 1⟩],
    members := [⟨1, "Alice", "0711234456", "", "addr"⟩],
    memberDepartments := [⟨1, 1, 1, some "member", some "pending", none, none, none⟩],
    appeals := [],
    settings := [],
    nextMemberId := 2, nextMdId := 2, nextAppealId := 1 }

/-- Counterexample to C2: updating member 1 of `dbW2` with an empty
`selected_departments` list does not fail — it succeeds and deletes the
member's existing selection row. -/
theorem c2_counterexample :
    (update_member dbW2 1 ⟨none, none, none, some []⟩).toOption.map
        (fun db => db.memberDepartments) = some [] ∧
    dbW2.memberDepartments ≠ [] := by decide

/-- Claim C2 (amended): the empty-proposal rejection applies only to the
submit operation — a submission with an empty `selected_departments` list
always fails with a 400 validation error; the update operation performs
no such check: with a nonnegative parsable global bound it accepts the
empty list, deletes every existing selection row of the member, and
creates none. -/
theorem c2_empty_proposal_submit_only
    (db : DB) (data : MemberSubmission) (member_id : Nat) (patch : UpdateData)
    (m : Member) (g : Int)
    (hsel : data.selected_departments = [])
    (hpatch : patch.selected_departments = some [])
    (hm : db.members.find? (fun x => x.id == member_id) = some m)
    (hg : maxDepartmentsSetting db.settings = some g) (hg0 : 0 ≤ g) :
    (∃ msg, submit_form db data = .error (.http 400 msg)) ∧
    (∃ db', update_member db member_id patch = .ok db' ∧
      (∀ r ∈ db'.memberDepartments, r.member_id ≠ member_id) ∧
      (∀ r ∈ db.memberDepartments, r.member_id ≠ member_id → r ∈ db'.memberDepartments)) := by
  constructor
  · rw [submit_form]
    split_ifs with h1 h2 h3
    · exact ⟨_, rfl⟩
    · exact ⟨_, rfl⟩
    · exact ⟨_, rfl⟩
    · rw [hsel] at h3
      simp at h3
  · simp only [update_member, hm, hpatch, validateQuota_nil hg hg0, insertAll]
    refine ⟨_, rfl, ?_, ?_⟩
    · intro r hr
      rw [List.mem_filter] at hr
      simpa using hr.2
    · intro r hr hne
      rw [List.mem_filter]
      exact ⟨hr, by simpa using hne⟩

theorem find?_split {α : Type} {p : α → Bool} :
    ∀ {l : List α} {r : α}, l.find? p = some r →
      ∃ l₁ l₂, l = l₁ ++ r :: l₂ ∧ (∀ x ∈ l₁, p x = false) ∧ p r = true := by
  intro l
  induction l with
  | nil => intro r h; simp at h
  | cons x xs ih =>
    intro r h
    by_cases hx : p x
    · rw [List.find?_cons_of_pos _ hx] at h
      cases h
      exact ⟨[], xs, by simp, by simp, hx⟩
    · rw [List.find?_cons_of_neg _ hx] at h
      obtain ⟨l₁, l₂, rfl, h₁, h₂⟩ := ih h
      refine ⟨x :: l₁, l₂, by simp, ?_, h₂⟩
      intro y hy
      rcases List.mem_cons.1 hy with rfl | hmem
      · simpa using hx
      · exact h₁ y hmem

theorem updateFirst_eq {α : Type} {p : α → Bool} {f : α → α} :
    ∀ {l₁ : List α} {r : α} (l₂ : List α), (∀ x ∈ l₁, p x = false) → p r = true →
      updateFirst p f (l₁ ++ r :: l₂) = l₁ ++ f r :: l₂ := by
  intro l₁
  induction l₁ with
  | nil =>
    intro r l₂ h₁ hr
    simp [updateFirst, hr]
  | cons x xs ih =>
    intro r l₂ h₁ hr
    have hx : p x = false := h₁ x (by simp)
    simp only [List.cons_append, updateFirst, hx, Bool.false_eq_true, if_false, List.append_eq]
    rw [ih _ (fun y hy => h₁ y (List.mem_cons_of_mem _ hy)) hr]

theorem updateFirst_eq_self {α : Type} {p : α → Bool} {f : α → α} :
    ∀ {l : List α}, (∀ x ∈ l, p x = false) → updateFirst p f l = l := by
  intro l
  induction l with
  | nil => intro _; rfl
  | cons x xs ih =>
    intro h
    have hx : p x = false := h x (by simp)
    simp only [updateFirst, hx, Bool.false_eq_true, if_false]
    rw [ih (fun y hy => h y (List.mem_cons_of_mem _ hy))]

/-- Witness for the amended C2 on the concrete store `dbW2`. -/
theorem c2_witness :
    ∃ db', update_member dbW2 1 ⟨none, none, none, some []⟩ = .ok db' ∧
      (∀ r ∈ db'.memberDepartments, r.member_id ≠ 1) ∧
      (∀ r ∈ dbW2.memberDepartments, r.member_id ≠ 1 → r ∈ db'.memberDepartments) :=
  (c2_empty_proposal_submit_only dbW2 ⟨"Bob", "0711234456", "", "addr", []⟩ 1
    ⟨none, none, none, some []⟩ ⟨1, "Alice", "0711234456", "", "addr"⟩ 3
    (by decide) (by decide) (by decide) (by decide) (by decide)).2

/-- A concrete store in which member 1 already holds both departments:
row 1 is dept 1, row 2 is dept 2. -/
def dbW3 : DB :=
  { categories := [],
    departments := [⟨1, "Choir", none⟩, ⟨2, "Ushering", none⟩],
    members := [⟨1, "Alice", "0711234456", "", "addr"⟩],
    memberDepartments := [⟨1, 1, 1, some "member", some "approved", none, none, none⟩,
                          ⟨2, 1, 2, some "member", some "approved", none, none, none⟩],
    appeals := [],
    settings := [],
    nextMemberId := 2, nextMdId := 3, nextAppealId := 1 }

/-- Counterexample to C3: in `dbW3`, row 1 exists and department 2
exists and is distinct from row 1's department, yet replacing row 1 with
department 2 does not produce the claimed postcondition — the member
already holds department 2, so the insert violates the store's
`(member_id, department_id)` uniqueness constraint and the operation
aborts with an IntegrityError. -/
theorem c3_counterexample :
    replace_department dbW3 5 1 ⟨2, none⟩ = .error (.pyExc "IntegrityError") ∧
    (dbW3.memberDepartments.find? (fun r => r.id == 1)).isSome ∧
    (dbW3.departments.find? (fun d => d.id == 2)).isSome ∧
    ¬((dbW3.memberDepartments.find? (fun r => r.id == 1)).map
        (fun r => r.department_id) = some 2) := by decide

/-- Claim C3 (amended): for every existing selection row R and existing
target department D distinct from R's department such that the member
holds no selection row for D (in any status — otherwise the store's
uniqueness constraint aborts the operation), replace sets R to rejected
with the given explanation (defaulted to "Replaced with D" when absent
or empty) and a stamp, creates exactly one new admin-sourced approved
row N for D noted "Replacement for R's department" and stamped, links
R.replaced_by_id to N's id, and leaves every other row unchanged; it
fails with a not-found error when R or D does not exist. -/
theorem c3_replace_postcondition
    (db : DB) (now mdId : Nat) (req : ReplaceDepartmentRequest)
    (md : MemberDepartment) (D RD : Department) (m : Member)
    (hmd : db.memberDepartments.find? (fun r => r.id == mdId) = some md)
    (hD : db.departments.find? (fun d => d.id == req.new_department_id) = some D)
    (hRD : db.departments.find? (fun d => d.id == md.department_id) = some RD)
    (hm : m ∈ db.members) (hmid : m.id = md.member_id)
    (hnoc : ∀ r ∈ db.memberDepartments,
        ¬(r.member_id = md.member_id ∧ r.department_id = req.new_department_id)) :
    ∃ db', replace_department db now mdId req = .ok db' ∧
      (⟨db.nextMdId, md.member_id, req.new_department_id, some "admin", some "approved",
        none, some ("Replacement for " ++ RD.name), some now⟩ : MemberDepartment)
        ∈ db'.memberDepartments ∧
      {md with status := some "rejected",
               admin_note := some (pyOr req.admin_note ("Replaced with " ++ D.name)),
               status_changed_at := some now,
               replaced_by_id := some db.nextMdId} ∈ db'.memberDepartments ∧
      db'.memberDepartments.length = db.memberDepartments.length + 1 ∧
      (∀ r ∈ db.memberDepartments, r.id ≠ md.id → r ∈ db'.memberDepartments) := by
  obtain ⟨l₁, l₂, hsplit, hno₁, hpmd⟩ := find?_split hmd
  have hmdid : md.id = mdId := by simpa using hpmd
  have hmdmem : md ∈ db.memberDepartments := by
    rw [hsplit]
    exact List.mem_append_right _ (List.mem_cons_self _ _)
  have hAfalse : ∀ (x : MemberDepartment), x ∈ db.memberDepartments →
      (x.member_id == md.member_id && x.department_id == req.new_department_id) = false := by
    intro x hx
    have h := hnoc x hx
    simp only [not_and] at h
    by_cases h1 : x.member_id = md.member_id
    · simp [h1, h h1]
    · simp [h1]
  simp only [replace_department, hmd, hD, hRD]
  rw [hsplit, updateFirst_eq l₂ hno₁ hpmd]
  split_ifs with hc
  · exfalso
    rw [mdInsertConflict] at hc
    simp only [Bool.or_eq_true, Bool.not_eq_true', List.any_eq_true, List.any_eq_false] at hc
    rcases hc with (⟨x, hx, hp⟩ | h) | h
    · rcases List.mem_append.1 hx with hx₁ | hx₂
      · have hf := hAfalse x (by rw [hsplit]; exact List.mem_append_left _ hx₁)
        simp [hf] at hp
      · rcases List.mem_cons.1 hx₂ with rfl | hx₃
        · simp only [beq_self_eq_true, Bool.true_and, beq_iff_eq] at hp
          exact hnoc md hmdmem ⟨rfl, hp⟩
        · have hf := hAfalse x (by
            rw [hsplit]
            exact List.mem_append_right _ (List.mem_cons_of_mem _ hx₃))
          simp [hf] at hp
    · have hDtrue := List.find?_some hD
      have hDfalse := h D (List.mem_of_find?_eq_some hD)
      simp [hDfalse] at hDtrue
    · have hmfalse := h m hm
      simp [hmid] at hmfalse
  · rw [List.append_assoc, List.cons_append]
    have hpmd' : (({md with status := some "rejected", admin_note := some (pyOr req.admin_note ("Replaced with " ++ D.name)), status_changed_at := some now} : MemberDepartment).id == mdId) = true := hpmd
    rw [updateFirst_eq _ hno₁ hpmd']
    refine ⟨_, rfl, ?_, ?_, ?_, ?_⟩
    · exact List.mem_append_right _ (List.mem_cons_of_mem _
        (List.mem_append_right _ (List.mem_cons_self _ _)))
    · exact List.mem_append_right _ (List.mem_cons_self _ _)
    · simp [List.length_append]
      omega
    · intro r hr hne
      rcases List.mem_append.1 hr with hr₁ | hr₂
      · exact List.mem_append_left _ hr₁
      · rcases List.mem_cons.1 hr₂ with rfl | hr₃
        · exact absurd rfl hne
        · exact List.mem_append_right _ (List.mem_cons_of_mem _ (List.mem_append_left _ hr₃))

/-- A concrete store for a successful replace: member 1 holds only
department 1 (row 1); department 2 is free. -/
def dbW3b : DB :=
  { categories := [],
    departments := [⟨1, "Choir", none⟩, ⟨2, "Ushering", none⟩],
    members := [⟨1, "Alice", "0711234456", "", "addr"⟩],
    memberDepartments := [⟨1, 1, 1, some "member", some "pending", none, none, none⟩],
    appeals := [],
    settings := [],
    nextMemberId := 2, nextMdId := 2, nextAppealId := 1 }

/-- Witness for the amended C3 on the concrete store `dbW3b`. -/
theorem c3_witness :
    ∃ db', replace_department dbW3b 5 1 ⟨2, none⟩ = .ok db' ∧
      (⟨2, 1, 2, some "admin", some "approved", none,
        some ("Replacement for " ++ "Choir"), some 5⟩ : MemberDepartment)
        ∈ db'.memberDepartments ∧
      (⟨1, 1, 1, some "member", some "rejected", some 2,
        some (pyOr none ("Replaced with " ++ "Ushering")), some 5⟩ : MemberDepartment)
        ∈ db'.memberDepartments ∧
      db'.memberDepartments.length = dbW3b.memberDepartments.length + 1 ∧
      (∀ r ∈ dbW3b.memberDepartments, r.id ≠ 1 → r ∈ db'.memberDepartments) :=
  c3_replace_postcondition dbW3b 5 1 ⟨2, none⟩
    ⟨1, 1, 1, some "member", some "pending", none, none, none⟩
    ⟨2, "Ushering", none⟩ ⟨1, "Choir", none⟩ ⟨1, "Alice", "0711234456", "", "addr"⟩
    (by decide) (by decide) (by decide) (by decide) (by decide) (by decide)

theorem updateFirst_length {α : Type} (p : α → Bool) (f : α → α) :
    ∀ (l : List α), (updateFirst p f l).length = l.length := by
  intro l
  induction l with
  | nil => rfl
  | cons x xs ih =>
    rw [updateFirst]
    split_ifs with hx
    · simp
    · simp [ih]

theorem any_updateFirst {α : Type} (p : α → Bool) (f : α → α) (q : α → Bool)
    (hq : ∀ x, q (f x) = q x) :
    ∀ (l : List α), (updateFirst p f l).any q = l.any q := by
  intro l
  induction l with
  | nil => rfl
  | cons x xs ih =>
    rw [updateFirst]
    split_ifs with hx
    · simp [hq]
    · simp [ih]

theorem find?_eq_of_unique_mem {α : Type} {p : α → Bool} {l : List α} {r : α}
    (hr : r ∈ l) (hp : p r = true) (huniq : ∀ x ∈ l, p x = true → x = r) :
    l.find? p = some r := by
  induction l with
  | nil => simp at hr
  | cons x xs ih =>
    by_cases hx : p x
    · rw [List.find?_cons_of_pos _ hx]
      rw [huniq x (by simp) hx]
    · rw [List.find?_cons_of_neg _ hx]
      rcases List.mem_cons.1 hr with rfl | hmem
      · exact absurd hp hx
      · exact ih hmem (fun y hy hpy => huniq y (List.mem_cons_of_mem _ hy) hpy)

theorem pairwise_unique_pair {l : List MemberDepartment}
    (hpu : l.Pairwise
      (fun r s => ¬(r.member_id = s.member_id ∧ r.department_id = s.department_id))) :
    ∀ x ∈ l, ∀ y ∈ l, x.member_id = y.member_id → x.department_id = y.department_id →
      x = y := by
  induction l with
  | nil => intro x hx; simp at hx
  | cons z zs ih =>
    rw [List.pairwise_cons] at hpu
    intro x hx y hy hmem hdep
    rcases List.mem_cons.1 hx with rfl | hx₂ <;> rcases List.mem_cons.1 hy with rfl | hy₂
    · rfl
    · exact absurd ⟨hmem, hdep⟩ (hpu.1 y hy₂)
    · exact absurd ⟨hmem.symm, hdep.symm⟩ (hpu.1 x hx₂)
    · exact ih hpu.2 x hx₂ y hy₂ hmem hdep

/-- Behaviour of the approved-appeal mutation step: it always succeeds
(given store well-formedness), rejecting the member's unique approved row
for the unwanted department when present, leaving all rows untouched
otherwise, and appending one admin-sourced approved row for the wanted
department exactly when the member does not already hold it. -/
theorem applyAppealApproved_spec (db : DB) (a : Appeal) (now : Nat)
    (hpu : db.memberDepartments.Pairwise
      (fun r s => ¬(r.member_id = s.member_id ∧ r.department_id = s.department_id)))
    (hWFm : ∃ mm ∈ db.members, mm.id = a.member_id)
    (hWFd : ∀ w, optTruthy a.wanted_department_id = some w →
      ∃ d ∈ db.departments, d.id = w) :
    ∃ rows k, applyAppealApproved db a now = .ok (rows, k) ∧
      rows.length = db.memberDepartments.length + k ∧
      (∀ u, optTruthy a.unwanted_department_id = some u →
        ∀ r₀ ∈ db.memberDepartments, r₀.member_id = a.member_id →
          r₀.department_id = u → r₀.status = some "approved" →
          {r₀ with status := some "rejected", admin_note := some "Removed via approved appeal", status_changed_at := some now} ∈ rows) ∧
      ((∀ u, optTruthy a.unwanted_department_id = some u →
          ∀ r ∈ db.memberDepartments, ¬(r.member_id = a.member_id ∧
            r.department_id = u ∧ r.status = some "approved")) →
        ∀ r ∈ db.memberDepartments, r ∈ rows) ∧
      (∀ w, optTruthy a.wanted_department_id = some w →
        (∀ r ∈ db.memberDepartments, ¬(r.member_id = a.member_id ∧ r.department_id = w)) →
        (⟨db.nextMdId, a.member_id, w, some "admin", some "approved", none,
          some "Added via approved appeal", some now⟩ : MemberDepartment) ∈ rows ∧ k = 1) ∧
      (∀ w, optTruthy a.wanted_department_id = some w →
        (∃ r ∈ db.memberDepartments, r.member_id = a.member_id ∧ r.department_id = w) →
        k = 0) ∧
      (optTruthy a.wanted_department_id = none → k = 0) := by
  obtain ⟨mm, hmm, hmmid⟩ := hWFm
  have hMemAny : db.members.any (fun x => x.id == a.member_id) = true :=
    List.any_eq_true.2 ⟨mm, hmm, by simp [hmmid]⟩
  cases hu : optTruthy a.unwanted_department_id with
  | none =>
    cases hw : optTruthy a.wanted_department_id with
    | none =>
      refine ⟨db.memberDepartments, 0, ?_, by simp, ?_, ?_, ?_, ?_, ?_⟩
      · simp only [applyAppealApproved, hu, hw]
      · intro u hu'
        cases hu'
      · intro _ r hr
        exact hr
      · intro w hw'
        cases hw'
      · intro w hw'
        cases hw'
      · intro _
        rfl
    | some w =>
      obtain ⟨d, hd, hdid⟩ := hWFd w hw
      have hDeptAny : db.departments.any (fun x => x.id == w) = true :=
        List.any_eq_true.2 ⟨d, hd, by simp [hdid]⟩
      cases hv : db.memberDepartments.any
          (fun r => r.member_id == a.member_id && r.department_id == w) with
      | true =>
        refine ⟨db.memberDepartments, 0, ?_, by simp, ?_, ?_, ?_, ?_, ?_⟩
        · simp only [applyAppealApproved, hu, hw, hv, if_true]
        · intro u hu'
          cases hu'
        · intro _ r hr
          exact hr
        · intro w' hw' hnone
          cases hw'
          obtain ⟨x, hx, hpx⟩ := List.any_eq_true.1 hv
          simp only [Bool.and_eq_true, beq_iff_eq] at hpx
          exact absurd ⟨hpx.1, hpx.2⟩ (hnone x hx)
        · intro w' hw' _
          rfl
        · intro h0
          cases h0
      | false =>
        refine ⟨db.memberDepartments ++
          [⟨db.nextMdId, a.member_id, w, some "admin", some "approved", none,
            some "Added via approved appeal", some now⟩], 1, ?_, by simp, ?_, ?_, ?_, ?_, ?_⟩
        · simp only [applyAppealApproved, hu, hw, hv, Bool.false_eq_true, if_false,
            mdInsertConflict, hDeptAny, hMemAny]
          simp
        · intro u hu'
          cases hu'
        · intro _ r hr
          exact List.mem_append_left _ hr
        · intro w' hw' _
          cases hw'
          exact ⟨List.mem_append_right _ (List.mem_cons_self _ _), rfl⟩
        · intro w' hw' hex
          cases hw'
          obtain ⟨r, hr, h1, h2⟩ := hex
          have hc : db.memberDepartments.any
              (fun r => r.member_id == a.member_id && r.department_id == w) = true :=
            List.any_eq_true.2 ⟨r, hr, by simp [h1, h2]⟩
          rw [hv] at hc
          cases hc
        · intro h0
          cases h0
  | some u =>
    have hanyPres : ∀ (w' : Nat),
        (updateFirst
          (fun r => r.member_id == a.member_id && r.department_id == u &&
            r.status == some "approved")
          (fun r => {r with status := some "rejected", admin_note := some "Removed via approved appeal", status_changed_at := some now})
          db.memberDepartments).any
            (fun r => r.member_id == a.member_id && r.department_id == w') =
        db.memberDepartments.any
          (fun r => r.member_id == a.member_id && r.department_id == w') := by
      intro w'
      apply any_updateFirst
      intro x
      rfl
    have hlenPres := updateFirst_length
      (fun (r : MemberDepartment) => r.member_id == a.member_id && r.department_id == u &&
        r.status == some "approved")
      (fun r => {r with status := some "rejected", admin_note := some "Removed via approved appeal", status_changed_at := some now})
      db.memberDepartments
    have hRemove : ∀ (r₀ : MemberDepartment), r₀ ∈ db.memberDepartments →
        r₀.member_id = a.member_id → r₀.department_id = u → r₀.status = some "approved" →
        {r₀ with status := some "rejected", admin_note := some "Removed via approved appeal", status_changed_at := some now} ∈
        updateFirst
          (fun r => r.member_id == a.member_id && r.department_id == u &&
            r.status == some "approved")
          (fun r => {r with status := some "rejected", admin_note := some "Removed via approved appeal", status_changed_at := some now})
          db.memberDepartments := by
      intro r₀ hr₀ hm0 hd0 hs0
      have hp0 : (r₀.member_id == a.member_id && r₀.department_id == u &&
          r₀.status == some "approved") = true := by simp [hm0, hd0, hs0]
      have huniq : ∀ x ∈ db.memberDepartments,
          (x.member_id == a.member_id && x.department_id == u &&
            x.status == some "approved") = true → x = r₀ := by
        intro x hx hpx
        simp only [Bool.and_eq_true, beq_iff_eq] at hpx
        exact pairwise_unique_pair hpu x hx r₀ hr₀ (hpx.1.1.trans hm0.symm)
          (hpx.1.2.trans hd0.symm)
      have hfind := find?_eq_of_unique_mem hr₀ hp0 huniq
      obtain ⟨l₁, l₂, hsp, hno, hpm⟩ := find?_split hfind
      rw [hsp, updateFirst_eq l₂ hno hpm]
      exact List.mem_append_right _ (List.mem_cons_self _ _)
    have hSelf : (∀ r ∈ db.memberDepartments, ¬(r.member_id = a.member_id ∧
        r.department_id = u ∧ r.status = some "approved")) →
        updateFirst
          (fun r => r.member_id == a.member_id && r.department_id == u &&
            r.status == some "approved")
          (fun r => {r with status := some "rejected", admin_note := some "Removed via approved appeal", status_changed_at := some now})
          db.memberDepartments = db.memberDepartments := by
      intro hnone
      apply updateFirst_eq_self
      intro x hx
      have hnx := hnone x hx
      by_cases h1 : x.member_id = a.member_id
      · by_cases h2 : x.department_id = u
        · by_cases h3 : x.status = some "approved"
          · exact absurd ⟨h1, h2, h3⟩ hnx
          · simp [h1, h2, h3]
        · simp [h1, h2]
      · simp [h1]
    cases hw : optTruthy a.wanted_department_id with
    | none =>
      refine ⟨_, 0, ?_, by simpa using hlenPres, ?_, ?_, ?_, ?_, ?_⟩
      · simp only [applyAppealApproved, hu, hw]
      · intro u' hu' r₀ hr₀ hm0 hd0 hs0
        cases hu'
        exact hRemove r₀ hr₀ hm0 hd0 hs0
      · intro hnone r hr
        rw [hSelf (hnone u rfl)]
        exact hr
      · intro w' hw'
        cases hw'
      · intro w' hw'
        cases hw'
      · intro _
        rfl
    | some w =>
      obtain ⟨d, hd, hdid⟩ := hWFd w hw
      have hDeptAny : db.departments.any (fun x => x.id == w) = true :=
        List.any_eq_true.2 ⟨d, hd, by simp [hdid]⟩
      cases hv : db.memberDepartments.any
          (fun r => r.member_id == a.member_id && r.department_id == w) with
      | true =>
        refine ⟨_, 0, ?_, by simpa using hlenPres, ?_, ?_, ?_, ?_, ?_⟩
        · simp only [applyAppealApproved, hu, hw, hanyPres w, hv, if_true]
        · intro u' hu' r₀ hr₀ hm0 hd0 hs0
          cases hu'
          exact hRemove r₀ hr₀ hm0 hd0 hs0
        · intro hnone r hr
          rw [hSelf (hnone u rfl)]
          exact hr
        · intro w' hw' hnone
          cases hw'
          obtain ⟨x, hx, hpx⟩ := List.any_eq_true.1 hv
          simp only [Bool.and_eq_true, beq_iff_eq] at hpx
          exact absurd ⟨hpx.1, hpx.2⟩ (hnone x hx)
        · intro w' hw' _
          rfl
        · intro h0
          cases h0
      | false =>
        refine ⟨updateFirst
            (fun r => r.member_id == a.member_id && r.department_id == u &&
              r.status == some "approved")
            (fun r => {r with status := some "rejected", admin_note := some "Removed via approved appeal", status_changed_at := some now})
            db.memberDepartments ++
          [⟨db.nextMdId, a.member_id, w, some "admin", some "approved", none,
            some "Added via approved appeal", some now⟩], 1, ?_, ?_, ?_, ?_, ?_, ?_, ?_⟩
        · simp only [applyAppealApproved, hu, hw, hanyPres w, hv, Bool.false_eq_true,
            if_false, mdInsertConflict, hDeptAny, hMemAny]
          simp
        · simp [hlenPres]
        · intro u' hu' r₀ hr₀ hm0 hd0 hs0
          cases hu'
          exact List.mem_append_left _ (hRemove r₀ hr₀ hm0 hd0 hs0)
        · intro hnone r hr
          rw [hSelf (hnone u rfl)]
          exact List.mem_append_left _ hr
        · intro w' hw' _
          cases hw'
          exact ⟨List.mem_append_right _ (List.mem_cons_self _ _), rfl⟩
        · intro w' hw' hex
          cases hw'
          obtain ⟨r, hr, h1, h2⟩ := hex
          have hc : db.memberDepartments.any
              (fun r => r.member_id == a.member_id && r.department_id == w) = true :=
            List.any_eq_true.2 ⟨r, hr, by simp [h1, h2]⟩
          rw [hv] at hc
          cases hc
        · intro h0
          cases h0

/-- Claim C4: appeal approval rejects (with note and stamp) the member's
approved row for the unwanted department when one exists and otherwise
changes no row and raises no error; it creates exactly one admin-sourced
approved row for the wanted department when the member is not linked to
it in any status and otherwise creates none; and in every case it writes
the appeal's status, admin_response and resolved_at. -/
theorem c4_appeal_approval_postcondition
    (db : DB) (now aid : Nat) (data : AppealResolve) (a : Appeal)
    (ha : db.appeals.find? (fun x => x.id == aid) = some a)
    (hst : data.status = "approved")
    (hpu : db.memberDepartments.Pairwise
      (fun r s => ¬(r.member_id = s.member_id ∧ r.department_id = s.department_id)))
    (hWFm : ∃ mm ∈ db.members, mm.id = a.member_id)
    (hWFd : ∀ w, optTruthy a.wanted_department_id = some w →
      ∃ d ∈ db.departments, d.id = w) :
    ∃ db', resolve_appeal db now aid data = .ok db' ∧
      {a with status := data.status, admin_response := data.admin_response, resolved_at := some now} ∈ db'.appeals ∧
      (∀ u, optTruthy a.unwanted_department_id = some u →
        ∀ r₀ ∈ db.memberDepartments, r₀.member_id = a.member_id →
          r₀.department_id = u → r₀.status = some "approved" →
          {r₀ with status := some "rejected", admin_note := some "Removed via approved appeal", status_changed_at := some now} ∈ db'.memberDepartments) ∧
      ((∀ u, optTruthy a.unwanted_department_id = some u →
          ∀ r ∈ db.memberDepartments, ¬(r.member_id = a.member_id ∧
            r.department_id = u ∧ r.status = some "approved")) →
        ∀ r ∈ db.memberDepartments, r ∈ db'.memberDepartments) ∧
      (∀ w, optTruthy a.wanted_department_id = some w →
        (∀ r ∈ db.memberDepartments, ¬(r.member_id = a.member_id ∧ r.department_id = w)) →
        (⟨db.nextMdId, a.member_id, w, some "admin", some "approved", none,
          some "Added via approved appeal", some now⟩ : MemberDepartment)
          ∈ db'.memberDepartments ∧
        db'.memberDepartments.length = db.memberDepartments.length + 1) ∧
      (∀ w, optTruthy a.wanted_department_id = some w →
        (∃ r ∈ db.memberDepartments, r.member_id = a.member_id ∧ r.department_id = w) →
        db'.memberDepartments.length = db.memberDepartments.length) ∧
      (optTruthy a.wanted_department_id = none →
        db'.memberDepartments.length = db.memberDepartments.length) := by
  obtain ⟨rows, k, happly, hlen, h1a, h1b, h2a, h2b, h2c⟩ :=
    applyAppealApproved_spec db a now hpu hWFm hWFd
  have hres : resolve_appeal db now aid data =
      .ok {db with
        appeals := updateFirst (fun x => x.id == aid)
          (fun x => {x with status := data.status, admin_response := data.admin_response, resolved_at := some now})
          db.appeals,
        memberDepartments := rows,
        nextMdId := db.nextMdId + k} := by
    simp only [resolve_appeal, ha, hst, beq_self_eq_true, Bool.true_or, Bool.not_true,
      Bool.false_eq_true, if_false, if_true, happly]
  obtain ⟨A₁, A₂, hasp, hano, hap⟩ := find?_split ha
  refine ⟨_, hres, ?_, ?_, ?_, ?_, ?_, ?_⟩
  · show _ ∈ updateFirst _ _ db.appeals
    rw [hasp, updateFirst_eq A₂ hano hap]
    exact List.mem_append_right _ (List.mem_cons_self _ _)
  · exact h1a
  · exact h1b
  · intro w hw hnone
    obtain ⟨hmem, hk⟩ := h2a w hw hnone
    refine ⟨hmem, ?_⟩
    show rows.length = _
    rw [hlen, hk]
  · intro w hw hex
    show rows.length = _
    rw [hlen, h2b w hw hex]
    rfl
  · intro h0
    show rows.length = _
    rw [hlen, h2c h0]
    rfl

/-- A concrete store for appeal resolution: member 1 has department 1
approved; a pending appeal asks to remove department 1 and add
department 3. -/
def dbW4 : DB :=
  { categories := [],
    departments := [⟨1, "Choir", none⟩, ⟨3, "Ushering", none⟩],
    members := [⟨1, "Alice", "0711234456", "", "addr"⟩],
    memberDepartments := [⟨1, 1, 1, some "member", some "approved", none, none, none⟩],
    appeals := [⟨1, 1, some 1, some 3, none, "pending", none, none⟩],
    settings := [],
    nextMemberId := 2, nextMdId := 2, nextAppealId := 2 }

/-- Witness for C4 on the concrete store `dbW4`. -/
theorem c4_witness :
    ∃ db', resolve_appeal dbW4 13 1 ⟨"approved", some "granted"⟩ = .ok db' ∧
      (⟨1, 1, some 1, some 3, none, "approved", some "granted", some 13⟩ : Appeal)
        ∈ db'.appeals ∧
      (⟨1, 1, 1, some "member", some "rejected", none,
        some "Removed via approved appeal", some 13⟩ : MemberDepartment)
        ∈ db'.memberDepartments ∧
      (⟨2, 1, 3, some "admin", some "approved", none,
        some "Added via approved appeal", some 13⟩ : MemberDepartment)
        ∈ db'.memberDepartments ∧
      db'.memberDepartments.length = dbW4.memberDepartments.length + 1 := by
  obtain ⟨db', hok, happ, h1a, -, h2a, -, -⟩ :=
    c4_appeal_approval_postcondition dbW4 13 1 ⟨"approved", some "granted"⟩
      ⟨1, 1, some 1, some 3, none, "pending", none, none⟩
      (by decide) (by decide) (by decide) (by decide) (by decide)
  refine ⟨db', hok, happ, ?_, ?_⟩
  · exact h1a 1 (by decide) ⟨1, 1, 1, some "member", some "approved", none, none, none⟩
      (by decide) rfl rfl rfl
  · exact h2a 3 (by decide) (by decide)

/-- Claim C5: appeal submission is gated on both publication flags with
distinguishable messages — when `resultsPublished` is absent or not
"true" it fails with the not-published message; when results are
published but `appealWindowOpen` is absent or not "true" it fails with
the window-closed message; and an Appeal row is created (success) only
when both settings equal "true".  An error leaves the store unchanged,
so no Appeal row is created on failure. -/
theorem c5_appeal_submission_gate (db : DB) (data : AppealCreate) :
    (settingLookup db.settings "resultsPublished" ≠ some "true" →
      submit_appeal db data = .error (.http 400 "Results are not yet published")) ∧
    (settingLookup db.settings "resultsPublished" = some "true" →
      settingLookup db.settings "appealWindowOpen" ≠ some "true" →
      submit_appeal db data = .error (.http 400 "Appeal window is currently closed")) ∧
    (∀ db' i, submit_appeal db data = .ok (db', i) →
      settingLookup db.settings "resultsPublished" = some "true" ∧
      settingLookup db.settings "appealWindowOpen" = some "true" ∧
      db'.appeals.length = db.appeals.length + 1) := by
  refine ⟨?_, ?_, ?_⟩
  · intro h
    have hb : (settingLookup db.settings "resultsPublished" == some "true") = false := by
      simpa using h
    simp [submit_appeal, hb]
  · intro h1 h2
    have hb1 : (settingLookup db.settings "resultsPublished" == some "true") = true := by
      simpa using h1
    have hb2 : (settingLookup db.settings "appealWindowOpen" == some "true") = false := by
      simpa using h2
    simp [submit_appeal, hb1, hb2]
  · intro db' i hok
    by_cases h1 : settingLookup db.settings "resultsPublished" = some "true"
    · by_cases h2 : settingLookup db.settings "appealWindowOpen" = some "true"
      · refine ⟨h1, h2, ?_⟩
        have hb1 : (settingLookup db.settings "resultsPublished" == some "true") = true := by
          simpa using h1
        have hb2 : (settingLookup db.settings "appealWindowOpen" == some "true") = true := by
          simpa using h2
        simp only [submit_appeal, hb1, hb2, Bool.not_true, Bool.false_eq_true, if_false] at hok
        cases hm : optTruthy data.member_id with
        | some mid =>
          simp only [hm] at hok
          cases hf : db.members.find? (fun x => x.id == mid) with
          | none =>
            simp only [hf] at hok
            simp at hok
          | some m =>
            simp only [hf] at hok
            split_ifs at hok with hphone
            dsimp only at hok
            split_ifs at hok with hconf
            simp only [Except.ok.injEq, Prod.mk.injEq] at hok
            obtain ⟨hdb, -⟩ := hok
            rw [← hdb]
            simp
        | none =>
          simp only [hm] at hok
          cases hfp : findMemberByPhone db.members data.phone with
          | none =>
            simp only [hfp] at hok
            simp at hok
          | some m =>
            simp only [hfp] at hok
            split_ifs at hok with hconf
            simp only [Except.ok.injEq, Prod.mk.injEq] at hok
            obtain ⟨hdb, -⟩ := hok
            rw [← hdb]
            simp
      · have hb1 : (settingLookup db.settings "resultsPublished" == some "true") = true := by
          simpa using h1
        have hb2 : (settingLookup db.settings "appealWindowOpen" == some "true") = false := by
          simpa using h2
        simp [submit_appeal, hb1, hb2] at hok
    · have hb : (settingLookup db.settings "resultsPublished" == some "true") = false := by
        simpa using h1
      simp [submit_appeal, hb] at hok

/-- Witness for C5: with no settings stored, submission fails with the
not-published message; with only `resultsPublished` set, it fails with
the window-closed message. -/
theorem c5_witness :
    submit_appeal dbW2 ⟨"0711234456", none, none, some 1, none⟩ =
      .error (.http 400 "Results are not yet published") ∧
    submit_appeal {dbW2 with settings := [("resultsPublished", "true")]}
        ⟨"0711234456", none, none, some 1, none⟩ =
      .error (.http 400 "Appeal window is currently closed") :=
  ⟨(c5_appeal_submission_gate dbW2 ⟨"0711234456", none, none, some 1, none⟩).1 (by decide),
   (c5_appeal_submission_gate {dbW2 with settings := [("resultsPublished", "true")]}
      ⟨"0711234456", none, none, some 1, none⟩).2.1 (by decide) (by decide)⟩

/-- A concrete store with one admin-assigned approved selection whose
`status_changed_at` is still null. -/
def dbW6 : DB :=
  { categories := [],
    departments := [⟨1, "Choir", none⟩],
    members := [⟨1, "Alice", "0711234456", "", "addr"⟩],
    memberDepartments := [⟨1, 1, 1, some "admin", some "approved", none, none, none⟩],
    appeals := [],
    settings := [],
    nextMemberId := 2, nextMdId := 2, nextAppealId := 1 }

/-- Counterexample to C6: member acceptance of the admin assignment in
`dbW6` sets `status_changed_at` (null to 7) while `status` stays
"approved" — a `status_changed_at` write with no status write in the
same operation. -/
theorem c6_counterexample :
    (accept_admin_assignment dbW6 7 1 "0711234456").toOption.map
        (fun db => db.memberDepartments) =
      some [⟨1, 1, 1, some "admin", some "approved", none,
        some " [Accepted by member]", some 7⟩] ∧
    dbW6.memberDepartments =
      [⟨1, 1, 1, some "admin", some "approved", none, none, none⟩] := by decide

/-- Claim C6 (amended): direct review writes `status` and stamps
`status_changed_at` together (leaving every other row unchanged), but
member acceptance is an exception to the claimed invariant — it restamps
`status_changed_at` while writing only `admin_note`, leaving `status`
untouched. -/
theorem c6_status_stamp_discipline
    (db : DB) (now mdId : Nat) (data : ReviewStatusUpdate) (phone : String)
    (md : MemberDepartment)
    (hmd : db.memberDepartments.find? (fun r => r.id == mdId) = some md) :
    (data.status = "approved" ∨ data.status = "rejected" →
      ∃ db', update_review_status db now mdId data = .ok db' ∧
        {md with status := some data.status, admin_note := data.admin_note, status_changed_at := some now} ∈ db'.memberDepartments ∧
        (∀ r ∈ db.memberDepartments, r.id ≠ md.id → r ∈ db'.memberDepartments) ∧
        db'.memberDepartments.length = db.memberDepartments.length) ∧
    (∀ m, db.members.find? (fun x => x.id == md.member_id) = some m →
      normalizePhone phone = normalizePhone m.phone →
      md.source = some "admin" →
      ∃ db', accept_admin_assignment db now mdId phone = .ok db' ∧
        {md with admin_note := some (pyOr md.admin_note "" ++ " [Accepted by member]"), status_changed_at := some now} ∈ db'.memberDepartments ∧
        (∀ r ∈ db.memberDepartments, r.id ≠ md.id → r ∈ db'.memberDepartments)) := by
  obtain ⟨l₁, l₂, hsp, hno, hpm⟩ := find?_split hmd
  constructor
  · intro hval
    have hbv : (data.status == "approved" || data.status == "rejected") = true := by
      rcases hval with h | h <;> simp [h]
    have heq : update_review_status db now mdId data = .ok {db with memberDepartments := (updateFirst (fun r => r.id == mdId) (fun r => {r with status := some data.status, admin_note := data.admin_note, status_changed_at := some now}) db.memberDepartments)} := by
      simp only [update_review_status, hmd, hbv, Bool.not_true, Bool.false_eq_true, if_false]
    refine ⟨_, heq, ?_, ?_, ?_⟩
    · show _ ∈ updateFirst _ _ db.memberDepartments
      rw [hsp, updateFirst_eq l₂ hno hpm]
      exact List.mem_append_right _ (List.mem_cons_self _ _)
    · intro r hr hne
      show r ∈ updateFirst _ _ db.memberDepartments
      rw [hsp] at hr
      rw [hsp, updateFirst_eq l₂ hno hpm]
      rcases List.mem_append.1 hr with hr₁ | hr₂
      · exact List.mem_append_left _ hr₁
      · rcases List.mem_cons.1 hr₂ with rfl | hr₃
        · exact absurd rfl hne
        · exact List.mem_append_right _ (List.mem_cons_of_mem _ hr₃)
    · show (updateFirst _ _ db.memberDepartments).length = _
      rw [updateFirst_length]
  · intro m hm hph hsrc
    have hbp : (normalizePhone phone == normalizePhone m.phone) = true := by simp [hph]
    have hbs : (md.source == some "admin") = true := by simp [hsrc]
    have heq : accept_admin_assignment db now mdId phone = .ok {db with memberDepartments := (updateFirst (fun r => r.id == mdId) (fun r => {r with admin_note := some (pyOr r.admin_note "" ++ " [Accepted by member]"), status_changed_at := some now}) db.memberDepartments)} := by
      simp only [accept_admin_assignment, hmd, hm, hbp, hbs, Bool.not_true,
        Bool.false_eq_true, if_false]
    refine ⟨_, heq, ?_, ?_⟩
    · show _ ∈ updateFirst _ _ db.memberDepartments
      rw [hsp, updateFirst_eq l₂ hno hpm]
      exact List.mem_append_right _ (List.mem_cons_self _ _)
    · intro r hr hne
      show r ∈ updateFirst _ _ db.memberDepartments
      rw [hsp] at hr
      rw [hsp, updateFirst_eq l₂ hno hpm]
      rcases List.mem_append.1 hr with hr₁ | hr₂
      · exact List.mem_append_left _ hr₁
      · rcases List.mem_cons.1 hr₂ with rfl | hr₃
        · exact absurd rfl hne
        · exact List.mem_append_right _ (List.mem_cons_of_mem _ hr₃)

/-- Witness for the amended C6 on `dbW6`: a review writes status and
stamp together; an acceptance (normalized phone match) rewrites the note
and stamp while keeping the status. -/
theorem c6_witness :
    (∃ db', update_review_status dbW6 5 1 ⟨"rejected", some "n"⟩ = .ok db' ∧
      (⟨1, 1, 1, some "admin", some "rejected", none, some "n", some 5⟩ : MemberDepartment)
        ∈ db'.memberDepartments) ∧
    (∃ db', accept_admin_assignment dbW6 5 1 "0711 234-456" = .ok db' ∧
      (⟨1, 1, 1, some "admin", some "approved", none,
        some " [Accepted by member]", some 5⟩ : MemberDepartment)
        ∈ db'.memberDepartments) := by
  obtain ⟨hrev, hacc⟩ := c6_status_stamp_discipline dbW6 5 1 ⟨"rejected", some "n"⟩
    "0711 234-456" ⟨1, 1, 1, some "admin", some "approved", none, none, none⟩ (by decide)
  constructor
  · obtain ⟨db', hok, hmem, -, -⟩ := hrev (.inr rfl)
    exact ⟨db', hok, hmem⟩
  · obtain ⟨db', hok, hmem, -⟩ := hacc ⟨1, "Alice", "0711234456", "", "addr"⟩
      (by decide) (by decide) rfl
    exact ⟨db', hok, hmem⟩

theorem map_if_stable {α : Type} (f g : α → α) (hfg : ∀ x, g (f x) = f x) :
    ∀ (l : List α), (l.map f).map g = l.map f := by
  intro l
  induction l with
  | nil => rfl
  | cons x xs ih => simp [hfg, ih]

theorem filter_map_stable {α : Type} (p : α → Bool) (f : α → α)
    (h : ∀ x, p (f x) = false) :
    ∀ (l : List α), (l.map f).filter p = [] := by
  intro l
  induction l with
  | nil => rfl
  | cons x xs ih => simp [h, ih]

theorem isPendingOrNull_stable (now : Nat) : ∀ (x : MemberDepartment),
    isPendingOrNull (if isPendingOrNull x then
      {x with status := some "approved", status_changed_at := some now} else x) = false := by
  intro x
  cases h : isPendingOrNull x with
  | true => simp [h, isPendingOrNull]
  | false => simp [h]

/-- Claim C7: one bulk-approve run approves (with stamp) exactly the
pending-or-null rows, reports their count, and leaves the others
untouched; a second run immediately after affects zero rows and returns
the store unchanged with count 0. -/
theorem c7_bulk_approve_idempotent (db : DB) (now now₂ : Nat) :
    (bulk_approve_pending db now).2 =
      (db.memberDepartments.filter isPendingOrNull).length ∧
    (∀ r ∈ db.memberDepartments, isPendingOrNull r = true →
      {r with status := some "approved", status_changed_at := some now}
        ∈ (bulk_approve_pending db now).1.memberDepartments) ∧
    (∀ r ∈ db.memberDepartments, isPendingOrNull r = false →
      r ∈ (bulk_approve_pending db now).1.memberDepartments) ∧
    bulk_approve_pending (bulk_approve_pending db now).1 now₂ =
      ((bulk_approve_pending db now).1, 0) := by
  refine ⟨rfl, ?_, ?_, ?_⟩
  · intro r hr h
    show _ ∈ List.map _ db.memberDepartments
    refine List.mem_map.2 ⟨r, hr, ?_⟩
    simp [h]
  · intro r hr h
    show _ ∈ List.map _ db.memberDepartments
    refine List.mem_map.2 ⟨r, hr, ?_⟩
    simp [h]
  · have hfg : ∀ (x : MemberDepartment),
        (if isPendingOrNull (if isPendingOrNull x then {x with status := some "approved", status_changed_at := some now} else x) then {(if isPendingOrNull x then {x with status := some "approved", status_changed_at := some now} else x) with status := some "approved", status_changed_at := some now₂} else (if isPendingOrNull x then {x with status := some "approved", status_changed_at := some now} else x)) = (if isPendingOrNull x then {x with status := some "approved", status_changed_at := some now} else x) := by
      intro x
      rw [isPendingOrNull_stable now x]
      simp
    simp only [bulk_approve_pending]
    rw [map_if_stable _ _ hfg, filter_map_stable _ _ (isPendingOrNull_stable now)]
    rfl

/-- Witness for C7 on `dbW2` (one pending row): the first run reports
one approved row and the second run is the identity with count 0. -/
theorem c7_witness :
    bulk_approve_pending (bulk_approve_pending dbW2 3).1 4 =
      ((bulk_approve_pending dbW2 3).1, 0) ∧
    (bulk_approve_pending dbW2 3).2 = 1 :=
  ⟨(c7_bulk_approve_idempotent dbW2 3 4).2.2.2, by decide⟩

theorem find?_congr {α : Type} {p q : α → Bool} (h : ∀ x, p x = q x) :
    ∀ (l : List α), l.find? p = l.find? q := by
  intro l
  induction l with
  | nil => rfl
  | cons x xs ih =>
    by_cases hx : p x
    · rw [List.find?_cons_of_pos _ hx, List.find?_cons_of_pos _ ((h x) ▸ hx)]
    · rw [List.find?_cons_of_neg _ hx, List.find?_cons_of_neg _ ((h x) ▸ hx), ih]

theorem filter_dropWhile {p q : Char → Bool} :
    ∀ {l : List Char}, (∀ c ∈ l, p c = true → q c = false) →
      (l.dropWhile p).filter q = l.filter q := by
  intro l
  induction l with
  | nil => intro _; rfl
  | cons x xs ih =>
    intro h
    by_cases hx : p x
    · have hq : q x = false := h x (by simp) hx
      simp only [List.dropWhile, hx]
      rw [ih (fun c hc hp => h c (List.mem_cons_of_mem _ hc) hp)]
      simp [List.filter, hq]
    · simp [List.dropWhile, hx]

theorem filter_pyStrip (q : Char → Bool) (s : String)
    (h : ∀ c ∈ s.toList, isPyWhitespace c = true → q c = false) :
    (pyStrip s).toList.filter q = s.toList.filter q := by
  show ((((s.toList.dropWhile isPyWhitespace).reverse.dropWhile isPyWhitespace).reverse).filter q) = _
  rw [List.filter_reverse]
  rw [filter_dropWhile (fun c hc hp => h c (by
    rw [List.mem_reverse] at hc
    exact (List.dropWhile_sublist _).subset hc) hp)]
  rw [List.filter_reverse, List.reverse_reverse]
  exact filter_dropWhile (fun c hc hp => h c hc hp)

/-- Counterexample to C8: the phone strings "0711\t234456" and
"0711234456" differ only in a whitespace character (a tab), yet the
normalization does not map them to the same string — `strip` only
trims ends and only literal spaces and hyphens are removed inside. -/
theorem c8_counterexample :
    "0711\t234456".toList.filter (fun c => !(isPyWhitespace c || c == '-')) =
      "0711234456".toList.filter (fun c => !(isPyWhitespace c || c == '-')) ∧
    normalizePhone "0711\t234456" ≠ normalizePhone "0711234456" := by decide

/-- Claim C8 (amended): for phone strings whose whitespace is limited to
literal spaces, normalization is invariant under space/hyphen
formatting: two such strings that agree after deleting spaces and
hyphens normalize identically, and the appeal-submission member
resolution then treats them identically; in particular
"0711 234-456" and "0711234456" normalize identically.  (Member lookup
by phone prefers an exact string match first, so among several members
sharing a normalized phone it may return different members for the two
spellings; the normalization itself is still equal.) -/
theorem c8_phone_normalization (s₁ s₂ : String) (members : List Member)
    (h₁ : ∀ c ∈ s₁.toList, isPyWhitespace c = true → c = ' ')
    (h₂ : ∀ c ∈ s₂.toList, isPyWhitespace c = true → c = ' ')
    (heq : s₁.toList.filter (fun c => !(c == ' ' || c == '-')) =
           s₂.toList.filter (fun c => !(c == ' ' || c == '-'))) :
    normalizePhone s₁ = normalizePhone s₂ ∧
    findMemberByPhone members s₁ = findMemberByPhone members s₂ ∧
    normalizePhone "0711 234-456" = normalizePhone "0711234456" := by
  have hnorm : normalizePhone s₁ = normalizePhone s₂ := by
    rw [normalizePhone, normalizePhone]
    rw [filter_pyStrip _ s₁ (fun c hc hp => by simp [h₁ c hc hp]),
        filter_pyStrip _ s₂ (fun c hc hp => by simp [h₂ c hc hp])]
    rw [heq]
  refine ⟨hnorm, ?_, by decide⟩
  apply find?_congr
  intro m
  by_cases hn : normalizePhone m.phone = normalizePhone s₁
  · have hn₂ : normalizePhone m.phone = normalizePhone s₂ := hn.trans hnorm
    have l1 : (normalizePhone m.phone == normalizePhone s₁ || m.phone == s₁) = true := by
      simp [hn]
    have l2 : (normalizePhone m.phone == normalizePhone s₂ || m.phone == s₂) = true := by
      simp [hn₂]
    rw [l1, l2]
  · have hn₂ : normalizePhone m.phone ≠ normalizePhone s₂ := fun h =>
      hn (h.trans hnorm.symm)
    have he₁ : m.phone ≠ s₁ := fun h => hn (by rw [h])
    have he₂ : m.phone ≠ s₂ := fun h => hn₂ (by rw [h])
    have l1 : (normalizePhone m.phone == normalizePhone s₁ || m.phone == s₁) = false := by
      simp [hn, he₁]
    have l2 : (normalizePhone m.phone == normalizePhone s₂ || m.phone == s₂) = false := by
      simp [hn₂, he₂]
    rw [l1, l2]

/-- Witness for the amended C8: the example pair normalizes identically
and resolves to the same member in appeal submission. -/
theorem c8_witness :
    normalizePhone "0711 234-456" = normalizePhone "0711234456" ∧
    findMemberByPhone dbW2.members "0711 234-456" =
      findMemberByPhone dbW2.members "0711234456" := by
  obtain ⟨h1, h2, -⟩ := c8_phone_normalization "0711 234-456" "0711234456" dbW2.members
    (by decide) (by decide) (by decide)
  exact ⟨h1, h2⟩

theorem mem_enumFrom_of_mem {α : Type} {x : α} :
    ∀ {l : List α} (n : Nat), x ∈ l → ∃ i, (i, x) ∈ l.enumFrom n := by
  intro l
  induction l with
  | nil => intro n h; simp at h
  | cons y ys ih =>
    intro n h
    rcases List.mem_cons.1 h with rfl | hmem
    · exact ⟨n, by simp [List.enumFrom]⟩
    · obtain ⟨i, hi⟩ := ih (n + 1) hmem
      exact ⟨i, by
        simp only [List.enumFrom]
        exact List.mem_cons_of_mem _ hi⟩

theorem insertAll_error_of_badFK (depts : List Department) (members : List Member) :
    ∀ (rows table : List MemberDepartment),
      (∃ r ∈ rows, ∀ d ∈ depts, d.id ≠ r.department_id) →
      ∃ e, insertAll depts members table rows = .error e := by
  intro rows
  induction rows with
  | nil =>
    rintro table ⟨r, hr, -⟩
    simp at hr
  | cons y ys ih =>
    rintro table ⟨r, hr, hbad⟩
    by_cases hc : mdInsertConflict table depts members y = true
    · exact ⟨.pyExc "IntegrityError", by simp [insertAll, hc]⟩
    · rcases List.mem_cons.1 hr with rfl | hmem
      · exfalso
        apply hc
        rw [mdInsertConflict]
        have hda : depts.any (fun d => d.id == r.department_id) = false :=
          List.any_eq_false.2 (fun d hd => by simp [hbad d hd])
        rw [hda]
        simp
      · obtain ⟨e, he⟩ := ih (table ++ [y]) ⟨r, hmem, hbad⟩
        refine ⟨e, ?_⟩
        rw [insertAll, if_neg hc]
        exact he

/-- Counterexample to C9: department id 99 does not exist in `dbW1`;
submitting [3, 99] passes quota validation (99 is exempt from every
category cap), but the operation does not create a selection row for
each proposed id — the store's foreign-key constraint aborts the
transaction with an IntegrityError and nothing is created. -/
theorem c9_counterexample :
    validateQuota dbW1 [3, 99] = .ok ∧
    (∀ d ∈ dbW1.departments, d.id ≠ 99) ∧
    submit_form dbW1 ⟨"Bob", "0711234456", "", "addr", [3, 99]⟩ =
      .error (.pyExc "IntegrityError") := by decide

/-- Claim C9 (amended): proposed ids that resolve to no stored
Department are never rejected by quota validation — only resolvable ids
are partitioned for the per-category checks, while the raw proposal
length (nonexistent ids included) is what the global `maxDepartments`
bound tests; the operation then proceeds past validation and attempts to
insert a row per id, but when any proposed id is nonexistent the
store's foreign-key constraint aborts the submission with an error, so
no rows are created. -/
theorem c9_nonexistent_ids (db : DB) (sel : List Nat) (data : MemberSubmission) (g : Int)
    (hg : maxDepartmentsSetting db.settings = some g) :
    selectedDepartments db.departments sel =
      selectedDepartments db.departments
        (sel.filter (fun i => db.departments.any (fun d => d.id == i))) ∧
    ((sel.length : Int) > g → validateQuota db sel = .reject (globalLimitMsg g)) ∧
    (∀ x ∈ data.selected_departments, (∀ d ∈ db.departments, d.id ≠ x) →
      ∃ e, submit_form db data = .error e) := by
  refine ⟨?_, ?_, ?_⟩
  · apply List.filter_congr
    intro d hd
    show List.elem d.id sel =
      List.elem d.id (sel.filter (fun i => db.departments.any (fun dd => dd.id == i)))
    apply Bool.eq_iff_iff.2
    rw [List.elem_iff, List.elem_iff, List.mem_filter]
    constructor
    · intro hmem
      exact ⟨hmem, List.any_eq_true.2 ⟨d, hd, by simp⟩⟩
    · intro hmem
      exact hmem.1
  · intro hlen
    rw [validateQuota_eq hg, if_pos hlen]
  · intro x hx hne
    rw [submit_form]
    split_ifs with h1 h2 h3
    · exact ⟨_, rfl⟩
    · exact ⟨_, rfl⟩
    · exact ⟨_, rfl⟩
    · cases hq : validateQuota db data.selected_departments with
      | reject msg => exact ⟨.http 400 msg, by simp only [hq]⟩
      | pyError e => exact ⟨.pyExc e, by simp only [hq]⟩
      | ok =>
        obtain ⟨i, hi⟩ := mem_enumFrom_of_mem 0 hx
        obtain ⟨e, he⟩ := insertAll_error_of_badFK db.departments
          (db.members ++ [⟨db.nextMemberId, data.full_name, data.phone,
            data.email, data.address⟩])
          (data.selected_departments.enum.map
            (fun p => mkMemberRow (db.nextMdId + p.1) db.nextMemberId p.2))
          db.memberDepartments
          ⟨mkMemberRow (db.nextMdId + i) db.nextMemberId x,
           List.mem_map.2 ⟨(i, x), hi, rfl⟩, fun d hd => hne d hd⟩
        exact ⟨e, by simp only [hq, he]⟩

/-- Witness for the amended C9 on `dbW1` with the nonexistent id 99. -/
theorem c9_witness :
    ∃ e, submit_form dbW1 ⟨"Bob", "0711234456", "", "addr", [3, 99]⟩ = .error e :=
  (c9_nonexistent_ids dbW1 [3, 99] ⟨"Bob", "0711234456", "", "addr", [3, 99]⟩ 3
    (by decide)).2.2 99 (by decide) (by decide)

/-- Claim C10: resolving an appeal does not require it to be pending —
for an existing appeal in any current status, resolving with "approved"
succeeds, re-applies the selection mutations, and overwrites the
appeal's status, admin_response and resolved_at; resolving with
"rejected" succeeds and overwrites the same fields without touching the
selection rows; the operation fails only when the appeal does not exist
(404) or the requested status is invalid (400). -/
theorem c10_resolve_any_status
    (db : DB) (now aid : Nat) (data : AppealResolve) (a : Appeal)
    (ha : db.appeals.find? (fun x => x.id == aid) = some a)
    (hpu : db.memberDepartments.Pairwise
      (fun r s => ¬(r.member_id = s.member_id ∧ r.department_id = s.department_id)))
    (hWFm : ∃ mm ∈ db.members, mm.id = a.member_id)
    (hWFd : ∀ w, optTruthy a.wanted_department_id = some w →
      ∃ d ∈ db.departments, d.id = w) :
    (data.status = "approved" →
      ∃ rows k db', applyAppealApproved db a now = .ok (rows, k) ∧
        resolve_appeal db now aid data = .ok db' ∧
        db'.memberDepartments = rows ∧
        {a with status := data.status, admin_response := data.admin_response, resolved_at := some now} ∈ db'.appeals) ∧
    (data.status = "rejected" →
      ∃ db', resolve_appeal db now aid data = .ok db' ∧
        db'.memberDepartments = db.memberDepartments ∧
        {a with status := data.status, admin_response := data.admin_response, resolved_at := some now} ∈ db'.appeals) ∧
    (data.status ≠ "approved" → data.status ≠ "rejected" →
      resolve_appeal db now aid data =
        .error (.http 400 "Status must be \x27approved\x27 or \x27rejected\x27")) ∧
    (∀ aid₂, db.appeals.find? (fun x => x.id == aid₂) = none →
      resolve_appeal db now aid₂ data = .error (.http 404 "Appeal not found")) := by
  obtain ⟨A₁, A₂, hasp, hano, hap⟩ := find?_split ha
  refine ⟨?_, ?_, ?_, ?_⟩
  · intro hst
    obtain ⟨rows, k, happly, -, -, -, -, -, -⟩ :=
      applyAppealApproved_spec db a now hpu hWFm hWFd
    have hres : resolve_appeal db now aid data =
        .ok {db with
          appeals := updateFirst (fun x => x.id == aid)
            (fun x => {x with status := data.status, admin_response := data.admin_response, resolved_at := some now})
            db.appeals,
          memberDepartments := rows,
          nextMdId := db.nextMdId + k} := by
      simp only [resolve_appeal, ha, hst, beq_self_eq_true, Bool.true_or, Bool.not_true,
        Bool.false_eq_true, if_false, if_true, happly]
    refine ⟨rows, k, _, happly, hres, rfl, ?_⟩
    show _ ∈ updateFirst _ _ db.appeals
    rw [hasp, updateFirst_eq A₂ hano hap]
    exact List.mem_append_right _ (List.mem_cons_self _ _)
  · intro hst
    have hres : resolve_appeal db now aid data =
        .ok {db with
          appeals := updateFirst (fun x => x.id == aid)
            (fun x => {x with status := data.status, admin_response := data.admin_response, resolved_at := some now})
            db.appeals} := by
      simp only [resolve_appeal, ha, hst]
      simp
    refine ⟨_, hres, rfl, ?_⟩
    show _ ∈ updateFirst _ _ db.appeals
    rw [hasp, updateFirst_eq A₂ hano hap]
    exact List.mem_append_right _ (List.mem_cons_self _ _)
  · intro h1 h2
    have hb : (data.status == "approved" || data.status == "rejected") = false := by
      simp [h1, h2]
    simp [resolve_appeal, ha, hb]
  · intro aid₂ hnone
    simp [resolve_appeal, hnone]

/-- A concrete store whose appeal is already resolved ("approved"). -/
def dbW10 : DB :=
  { categories := [],
    departments := [⟨1, "Choir", none⟩, ⟨3, "Ushering", none⟩],
    members := [⟨1, "Alice", "0711234456", "", "addr"⟩],
    memberDepartments := [⟨1, 1, 1, some "member", some "approved", none, none, none⟩],
    appeals := [⟨1, 1, some 1, some 3, none, "approved", some "granted", some 1⟩],
    settings := [],
    nextMemberId := 2, nextMdId := 2, nextAppealId := 2 }

/-- Witness for C10 on `dbW10`: re-resolving the already-approved appeal
to "rejected" succeeds and overwrites its fields. -/
theorem c10_witness :
    ∃ db', resolve_appeal dbW10 21 1 ⟨"rejected", some "undo"⟩ = .ok db' ∧
      db'.memberDepartments = dbW10.memberDepartments ∧
      (⟨1, 1, some 1, some 3, none, "rejected", some "undo", some 21⟩ : Appeal)
        ∈ db'.appeals :=
  (c10_resolve_any_status dbW10 21 1 ⟨"rejected", some "undo"⟩
    ⟨1, 1, some 1, some 3, none, "approved", some "granted", some 1⟩
    (by decide) (by decide) (by decide) (by decide)).2.1 rfl

end DeptSel
